import Mathlib

/-!
The request-handling pipeline of echo-webserver.

A shallow embedding of `main.go`: the configuration check, the per-endpoint
handler closure (linear scan, response construction, callout fan-out, CPU burn,
delay reconciliation) and the helpers `tightAlgorithm` and `calloutFunction`.

Conventions.
* Go's `uint`, `int` and `time.Duration` are 64-bit.  `uint` values are natural
  numbers below `2^64`; `int`, `int32` and `time.Duration` values are integers
  and every conversion or arithmetic step that can leave the range is wrapped
  explicitly (`wrapInt64`, `wrapInt32`).
* Go strings are Lean strings.  The two library calls used on them,
  `strings.ReplaceAll(s, "'", "")` and `strings.Split(s, "__")`, only look for
  ASCII bytes, so working on characters agrees with working on bytes.
* A slice is a header (backing array, length, capacity) into an explicit heap
  of backing arrays, so that `append` has Go's aliasing behaviour.
* Time is an explicit clock in nanoseconds carried by the handler state.
* A run-time panic (index out of range) aborts the handler; what had been
  written to the response writer before stays written.
-/

namespace EchoWebserver

/-! ## Machine integers -/

/-- Two's-complement wrap of an integer into the range of a 64-bit `int`. -/
def wrapInt64 (x : Int) : Int := (x + 2 ^ 63) % 2 ^ 64 - 2 ^ 63

/-- Two's-complement wrap of an integer into the range of an `int32`. -/
def wrapInt32 (x : Int) : Int := (x + 2 ^ 31) % 2 ^ 32 - 2 ^ 31

/-- One `time.Millisecond`, in nanoseconds. -/
def Millisecond : Int := 1000000

/-! ## Configuration -/

/-- The `config` struct of `main.go`. -/
structure config where
  Name : String
  InitDelay : Nat
  Port : Nat
  CPUusage : Nat
  MemoryUsage : Nat
  Endpoints : List String
  EndpointsCPU : List Nat
  EndpointsDelay : List Nat
  EndpointsCall : List String

/-- The method `(c *config) check()`. -/
def config.check (c : config) : Bool :=
  if c.Endpoints.length = c.EndpointsCPU.length ∧
      c.Endpoints.length = c.EndpointsDelay.length ∧
      c.Endpoints.length = c.EndpointsCall.length then
    true
  else
    false

/-! ## String helpers from the Go standard library -/

/-- The quote character removed from call specs. -/
def quoteChar : Char := Char.ofNat 39

/-- The call `strings.ReplaceAll(s, "'", "")`: every quote character is dropped. -/
def replaceAllQuote (s : String) : String :=
  String.mk (s.data.filter (fun c => c != quoteChar))

/-- The scan of `strings.Split(s, "__")`: `cur` holds, reversed, the characters
read since the last separator; the leftmost occurrence of the separator is cut
first and the scan resumes after it. -/
def splitScan : List Char → List Char → List String
  | [], cur => [String.mk cur.reverse]
  | [c], cur => [String.mk (c :: cur).reverse]
  | c :: d :: rest, cur =>
    if c = '_' ∧ d = '_' then
      String.mk cur.reverse :: splitScan rest []
    else
      splitScan (d :: rest) (c :: cur)

/-- The call `strings.Split(s, "__")`. -/
def splitDunder (s : String) : List String := splitScan s.data []

/-! ## CPU burn -/

/-- The `for iteration < iterationNeeded` loop of `tightAlgorithm`.  The pair is
the final value of `iteration` and the number of times the body has run.  The
increment cannot overflow: it is only reached with `iteration` below
`iterationNeeded`, itself a machine `int`. -/
def tightLoop (iterationNeeded : Int) (iteration : Int) (bodyRuns : Nat) : Int × Nat :=
  if iteration < iterationNeeded then
    tightLoop iterationNeeded (iteration + 1) (bodyRuns + 1)
  else
    (iteration, bodyRuns)
termination_by (iterationNeeded - iteration).toNat
decreasing_by omega

/-- The value `iterationNeeded` of `tightAlgorithm`: the product is a machine
`int` product and `/` truncates toward zero. -/
def iterationNeeded (NumberOfIterationsPerSec milliseconds : Int) : Int :=
  Int.tdiv (wrapInt64 (NumberOfIterationsPerSec * milliseconds)) 1000

/-- The function `tightAlgorithm`, returning how often the loop body ran.  The
global `NumberOfIterationsPerSec` is the first argument.  The values `duration`
and `dontCare` only feed the printed output, as do the timestamps. -/
def tightAlgorithm (NumberOfIterationsPerSec milliseconds : Int) : Nat :=
  (tightLoop (iterationNeeded NumberOfIterationsPerSec milliseconds) 0 0).2

/-! ## Slices -/

/-- The heap of backing arrays; an address is a position in the list. -/
abbrev Heap := List (List String)

/-- A slice header: backing array, length and capacity (the offset is always 0
in this program). -/
structure Slice where
  array : Nat
  len : Nat
  cap : Nat
deriving DecidableEq

/-- The builtin `make([]string, n)`: a fresh zeroed array of length and capacity `n`. -/
def makeSlice (h : Heap) (n : Nat) : Heap × Slice :=
  (h ++ [List.replicate n ""], { array := h.length, len := n, cap := n })

/-- The capacity chosen when `append` has to reallocate.  The language only
promises that the new capacity is sufficient; doubling is what the runtime does
for small slices. -/
def growCap (oldCap needed : Nat) : Nat := max needed (2 * oldCap)

/-- The builtin `append(s, v)`: with spare capacity the element is written in
place behind the current length, otherwise the elements are copied to a fresh
array.  The result is the new header; the header passed in is not changed. -/
def appendSlice (h : Heap) (s : Slice) (v : String) : Heap × Slice :=
  if s.len < s.cap then
    (h.set s.array ((h.getD s.array []).set s.len v), { s with len := s.len + 1 })
  else
    let newCap := growCap s.cap (s.len + 1)
    (h ++ [(h.getD s.array []).take s.len ++ [v] ++ List.replicate (newCap - (s.len + 1)) ""],
      { array := h.length, len := s.len + 1, cap := newCap })

/-- The elements visible through a slice header. -/
def readSlice (h : Heap) (s : Slice) : List String := (h.getD s.array []).take s.len

/-! ## Callouts -/

/-- The three outcomes of `http.Get` followed by `io.Copy` of the body. -/
inductive CallResult where
  | connFailed
  | readFailed
  | body (text : String)
deriving DecidableEq

/-- The marker recorded when `http.Get` returns an error. -/
def callFailedMarker : String := "Oops, calling out failed"

/-- The marker recorded when copying the body returns an error. -/
def convertFailedMarker : String := "Oops, failed to convert response to string"

/-- What the handler cannot compute by itself: the calibration constant, the
outcome of each outbound GET (by URL), the time row `k` spends between the start
timestamp and the reconcile step, and by how much a sleep overshoots. -/
structure Env where
  NumberOfIterationsPerSec : Int
  httpGet : String → CallResult
  elapsed : Nat → Nat
  sleepOvershoot : Nat

/-- The function `calloutFunction`.  The parameter `calloutResponses` is the
callee's own copy of the slice header; each branch assigns the result of
`append` to that copy.  Returned are the heap and the callee's final header. -/
def calloutFunction (env : Env) (_i : Nat) (callOut : String) (calloutResponses : Slice)
    (h : Heap) : Heap × Slice :=
  let callOut := replaceAllQuote callOut
  let url := "http://" ++ callOut
  match env.httpGet url with
  | CallResult.connFailed => appendSlice h calloutResponses callFailedMarker
  | CallResult.readFailed => appendSlice h calloutResponses convertFailedMarker
  | CallResult.body text => appendSlice h calloutResponses text

/-- The loop `for i, callOut := range calloutStringArray { go calloutFunction(...) }`
together with `waitgroupToCallouts.Wait()`: every goroutine has run to its end.
Each one receives the same header value; they are run here in index order. -/
def fanOut (env : Env) (calloutResponses : Slice) : List String → Nat → Heap → Heap
  | [], _, h => h
  | callOut :: rest, i, h =>
    fanOut env calloutResponses rest (i + 1) (calloutFunction env i callOut calloutResponses h).1

/-! ## Requests, responses and the handler -/

/-- The parts of `*http.Request` the handler reads. -/
structure Request where
  Method : String
  URL : String
  Path : String
  RemoteAddr : String
  Host : String
deriving DecidableEq

/-- The `Response` struct of `main.go`; durations and timestamps in nanoseconds. -/
structure Response where
  ServiceName : String
  Host : String
  ConfigOK : Bool
  CalledEnpoint : String
  CPU : Int
  Delay : Int
  CalloutParameter : String
  Callouts : List String
  ActualDelay : Int
  Time : Int
  RequestMethod : String
  RequestURL : String
  RequestAddress : String
deriving DecidableEq

/-- The state threaded through one run of the handler: the clock, the heap, the
responses encoded to the writer so far, the arguments of the `time.Sleep` calls
made, the body-run counts of the `tightAlgorithm` calls made, and whether the
run was aborted by a panic. -/
structure HState where
  now : Int
  heap : Heap
  written : List Response
  sleeps : List Int
  burns : List Nat
  panicked : Bool
deriving DecidableEq

/-- The call `time.Since(start)`: the difference saturates at the ends of the
`time.Duration` range. -/
def since (now start : Int) : Int := max (-(2 ^ 63)) (min (2 ^ 63 - 1) (now - start))

/-- The value `waitTime`: `(time.Duration(delay) * time.Millisecond) - time.Since(start)`. -/
def waitTime (delay : Nat) (now start : Int) : Int :=
  wrapInt64 (wrapInt64 (wrapInt64 delay * Millisecond) - since now start)

/-- The reconcile step: `if waitTime > 0 { time.Sleep(waitTime) }`.  A sleep
lasts its argument plus the overshoot of the environment. -/
def reconcile (env : Env) (delay : Nat) (start : Int) (st : HState) : HState :=
  if waitTime delay st.now start > 0 then
    { st with
      now := st.now + waitTime delay st.now start + env.sleepOvershoot
      sleeps := st.sleeps ++ [waitTime delay st.now start] }
  else
    st

/-- The body of `if endp == r.URL.Path { ... }` once the three indexed reads of
row `k` have succeeded with `cpu`, `delay` and `callSpec`. -/
def serveMatched (env : Env) (cfg : config) (r : Request) (start : Int) (k : Nat)
    (endp : String) (cpu delay : Nat) (callSpec : String) (st : HState) : HState :=
  let call := replaceAllQuote callSpec
  let calloutStringArray := splitDunder call
  let made := makeSlice st.heap calloutStringArray.length
  let calloutResponses := made.2
  let heap1 := fanOut env calloutResponses calloutStringArray 0 made.1
  let runs := tightAlgorithm env.NumberOfIterationsPerSec (wrapInt64 cpu)
  let callouts := readSlice heap1 calloutResponses
  let st1 : HState :=
    { st with now := st.now + env.elapsed k, heap := heap1, burns := st.burns ++ [runs] }
  let st2 := reconcile env delay start st1
  let response : Response :=
    { ServiceName := cfg.Name
      Host := r.Host
      ConfigOK := cfg.check
      CalledEnpoint := endp
      CPU := wrapInt32 cpu
      Delay := wrapInt32 delay
      CalloutParameter := callSpec
      Callouts := callouts
      ActualDelay := since st2.now start
      Time := st2.now
      RequestMethod := r.Method
      RequestURL := r.URL
      RequestAddress := r.RemoteAddr }
  { st2 with written := st2.written ++ [response] }

/-- The body of `if endp == r.URL.Path { ... }` for row `k`: `none` is the
index-out-of-range panic of `cfg.EndpointsCPU[k]`, `cfg.EndpointsDelay[k]` or
`cfg.EndpointsCall[k]`, all read before anything else happens. -/
def serveRow (env : Env) (cfg : config) (r : Request) (start : Int) (k : Nat)
    (endp : String) (st : HState) : Option HState :=
  match cfg.EndpointsCPU[k]?, cfg.EndpointsDelay[k]?, cfg.EndpointsCall[k]? with
  | some cpu, some delay, some callSpec =>
    some (serveMatched env cfg r start k endp cpu delay callSpec st)
  | _, _, _ => none

/-- The loop `for k, endp := range cfg.Endpoints` of the handler, from index `k`
on.  There is no `break`: the scan goes on after a match.  A panic ends it. -/
def handlerLoop (env : Env) (cfg : config) (r : Request) (start : Int) :
    List String → Nat → HState → HState
  | [], _, st => st
  | endp :: rest, k, st =>
    if endp = r.Path then
      match serveRow env cfg r start k endp st with
      | none => { st with panicked := true }
      | some st1 => handlerLoop env cfg r start rest (k + 1) st1
    else
      handlerLoop env cfg r start rest (k + 1) st

/-- The state in which the handler starts at clock reading `t0`. -/
def initState (t0 : Int) : HState :=
  { now := t0, heap := [], written := [], sleeps := [], burns := [], panicked := false }

/-- The closure registered for every configured endpoint, run on request `r`
arriving at clock reading `t0` (`start := time.Now()`). -/
def handler (env : Env) (cfg : config) (r : Request) (t0 : Int) : HState :=
  handlerLoop env cfg r t0 cfg.Endpoints 0 (initState t0)

/-! ## Registration of the endpoints -/

/-- An environment in which every outbound call fails to connect. -/
def envDown : Env :=
  { NumberOfIterationsPerSec := 1000
    httpGet := fun _ => CallResult.connFailed
    elapsed := fun _ => 0
    sleepOvershoot := 0 }

/-- The configuration of the end-to-end scenario: `/ping`, CPU 10, delay 50, empty call spec. -/
def cfgPing : config :=
  { Name := "Service-#ID", InitDelay := 0, Port := 8080, CPUusage := 50, MemoryUsage := 64
    Endpoints := ["/ping"], EndpointsCPU := [10], EndpointsDelay := [50], EndpointsCall := [""] }

/-- A GET request for `path`. -/
def getRequest (path : String) : Request :=
  { Method := "GET", URL := path, Path := path, RemoteAddr := "127.0.0.1:40000", Host := "localhost:8080" }

/-- A configuration with three endpoints, CPU weights and delays, and the two
default call specs. -/
def cfgShort : config :=
  { Name := "Frontend", InitDelay := 9, Port := 9090, CPUusage := 90, MemoryUsage := 900
    Endpoints := ["/read", "/index", "/extra"], EndpointsCPU := [99, 22, 5]
    EndpointsDelay := [98, 202, 7], EndpointsCall := ["", "asd__basf"] }

/-- A configuration whose CPU weight and delay do not fit the `int32` response fields. -/
def cfgWide : config :=
  { Name := "Service-#ID", InitDelay := 0, Port := 8080, CPUusage := 50, MemoryUsage := 64
    Endpoints := ["/wide"], EndpointsCPU := [2147483648], EndpointsDelay := [4294967296]
    EndpointsCall := [""] }

/-- A configuration whose delay target, in nanoseconds, exceeds the `time.Duration` range. -/
def cfgLongDelay : config :=
  { Name := "Service-#ID", InitDelay := 0, Port := 8080, CPUusage := 50, MemoryUsage := 64
    Endpoints := ["/slow"], EndpointsCPU := [0], EndpointsDelay := [9223372036855]
    EndpointsCall := [""] }

/-- An environment in which every outbound call succeeds and returns a body. -/
def envUp : Env :=
  { NumberOfIterationsPerSec := 1000
    httpGet := fun url => CallResult.body ("pong from " ++ url)
    elapsed := fun _ => 0
    sleepOvershoot := 0 }

/-- A configuration whose endpoint calls three other services. -/
def cfgCall : config :=
  { Name := "Service-#ID", InitDelay := 0, Port := 8080, CPUusage := 50, MemoryUsage := 64
    Endpoints := ["/index"], EndpointsCPU := [1], EndpointsDelay := [30]
    EndpointsCall := ["host1__host2__host3"] }

/-! ## Specification predicates -/

/-- The response `resp` carries the row `(endp, cpu, delay, callSpec)` of `cfg`:
the fields the handler fills from the configuration, with the `int32`
conversions of the two numbers, and one empty-string slot per call target. -/
def BuiltFromRow (cfg : config) (endp : String) (cpu delay : Nat) (callSpec : String)
    (resp : Response) : Prop :=
  resp.ServiceName = cfg.Name ∧ resp.ConfigOK = cfg.check ∧ resp.CalledEnpoint = endp ∧
    resp.CPU = wrapInt32 cpu ∧ resp.Delay = wrapInt32 delay ∧
    resp.CalloutParameter = callSpec ∧
    resp.Callouts = List.replicate (splitDunder (replaceAllQuote callSpec)).length ""

/-- Row `k` of `cfg` exists in all three value sequences and holds `cpu`, `delay`, `callSpec`. -/
def RowAt (cfg : config) (k : Nat) (cpu delay : Nat) (callSpec : String) : Prop :=
  cfg.EndpointsCPU[k]? = some cpu ∧ cfg.EndpointsDelay[k]? = some delay ∧
    cfg.EndpointsCall[k]? = some callSpec

/-! ## Lemmas: machine integers and the burn loop -/

theorem wrapInt64_of_range (x : Int) (h0 : -(2 ^ 63) ≤ x) (h1 : x < 2 ^ 63) : wrapInt64 x = x := by
  unfold wrapInt64
  omega

theorem wrapInt32_of_range (x : Int) (h0 : -(2 ^ 31) ≤ x) (h1 : x < 2 ^ 31) : wrapInt32 x = x := by
  unfold wrapInt32
  omega

theorem tightLoop_eq (needed : Int) (n : Nat) :
    ∀ (iteration : Int) (bodyRuns : Nat), (needed - iteration).toNat = n →
      tightLoop needed iteration bodyRuns = (max iteration needed, bodyRuns + n) := by
  induction n with
  | zero =>
    intro iteration bodyRuns h
    have hle : needed ≤ iteration := by omega
    rw [tightLoop, if_neg (by omega)]
    simp [max_eq_left hle]
  | succ m ih =>
    intro iteration bodyRuns h
    have hlt : iteration < needed := by omega
    rw [tightLoop, if_pos hlt, ih (iteration + 1) (bodyRuns + 1) (by omega)]
    have h1 : max (iteration + 1) needed = needed := max_eq_right (by omega)
    have h2 : max iteration needed = needed := max_eq_right (by omega)
    rw [h1, h2]
    congr 1
    omega

theorem tightAlgorithm_eq (N ms : Int) :
    tightAlgorithm N ms = (iterationNeeded N ms).toNat := by
  unfold tightAlgorithm
  rw [tightLoop_eq (iterationNeeded N ms) (iterationNeeded N ms - 0).toNat 0 0 rfl]
  simp

/-! ## Lemmas: splitting -/

theorem splitScan_length_pos (n : Nat) :
    ∀ (s cur : List Char), s.length ≤ n → 0 < (splitScan s cur).length := by
  induction n with
  | zero =>
    intro s cur h
    have hs : s = [] := List.length_eq_zero.mp (by omega)
    subst hs
    simp [splitScan]
  | succ m ih =>
    intro s cur h
    match s, h with
    | [], _ => simp [splitScan]
    | [c], _ => simp [splitScan]
    | c :: d :: rest, h =>
      rw [splitScan]
      split
      · simp
      · exact ih (d :: rest) (c :: cur) (by simp at h ⊢; omega)

theorem splitDunder_length_pos (s : String) : 0 < (splitDunder s).length :=
  splitScan_length_pos s.data.length s.data [] (le_refl _)

/-! ## Lemmas: slices and the fan-out -/

theorem appendSlice_full (h : Heap) (s : Slice) (v : String) (hfull : s.cap ≤ s.len) :
    ∃ a, (appendSlice h s v).1 = h ++ [a] := by
  unfold appendSlice
  rw [if_neg (by omega)]
  exact ⟨_, rfl⟩

theorem calloutFunction_full (env : Env) (i : Nat) (callOut : String) (s : Slice) (h : Heap)
    (hfull : s.cap ≤ s.len) : ∃ a, (calloutFunction env i callOut s h).1 = h ++ [a] := by
  unfold calloutFunction
  simp only
  split <;> exact appendSlice_full h s _ hfull

theorem fanOut_full (env : Env) (s : Slice) (hfull : s.cap ≤ s.len) (targets : List String) :
    ∀ (i : Nat) (h : Heap), ∃ ext, fanOut env s targets i h = h ++ ext := by
  induction targets with
  | nil => intro i h; exact ⟨[], by simp [fanOut]⟩
  | cons t rest ih =>
    intro i h
    obtain ⟨a, ha⟩ := calloutFunction_full env i t s h hfull
    obtain ⟨ext, hext⟩ := ih (i + 1) (h ++ [a])
    refine ⟨[a] ++ ext, ?_⟩
    rw [fanOut, ha, hext, List.append_assoc]

theorem readSlice_fanOut_make (env : Env) (h : Heap) (targets : List String) (n : Nat) :
    readSlice (fanOut env (makeSlice h n).2 targets 0 (makeSlice h n).1) (makeSlice h n).2
      = List.replicate n "" := by
  obtain ⟨ext, hext⟩ := fanOut_full env (makeSlice h n).2 (le_refl _) targets 0 (makeSlice h n).1
  rw [hext]
  have hget : (h ++ [List.replicate n ""] ++ ext).getD h.length [] = List.replicate n "" := by
    rw [List.append_assoc, List.getD_eq_getElem?_getD, List.getElem?_append_right (le_refl _)]
    simp
  simp only [readSlice, makeSlice]
  rw [hget, List.take_replicate, Nat.min_self]

/-! ## Lemmas: one matched row -/

theorem reconcile_written (env : Env) (delay : Nat) (start : Int) (st : HState) :
    (reconcile env delay start st).written = st.written := by
  unfold reconcile
  split <;> rfl

theorem reconcile_panicked (env : Env) (delay : Nat) (start : Int) (st : HState) :
    (reconcile env delay start st).panicked = st.panicked := by
  unfold reconcile
  split <;> rfl

theorem reconcile_burns (env : Env) (delay : Nat) (start : Int) (st : HState) :
    (reconcile env delay start st).burns = st.burns := by
  unfold reconcile
  split <;> rfl

theorem serveMatched_panicked (env : Env) (cfg : config) (r : Request) (start : Int) (k : Nat)
    (endp : String) (cpu delay : Nat) (callSpec : String) (st : HState) :
    (serveMatched env cfg r start k endp cpu delay callSpec st).panicked = st.panicked := by
  simp [serveMatched, reconcile_panicked]

theorem serveMatched_burns (env : Env) (cfg : config) (r : Request) (start : Int) (k : Nat)
    (endp : String) (cpu delay : Nat) (callSpec : String) (st : HState) :
    (serveMatched env cfg r start k endp cpu delay callSpec st).burns
      = st.burns ++ [tightAlgorithm env.NumberOfIterationsPerSec (wrapInt64 cpu)] := by
  simp [serveMatched, reconcile_burns]

theorem serveMatched_spec (env : Env) (cfg : config) (r : Request) (start : Int) (k : Nat)
    (endp : String) (cpu delay : Nat) (callSpec : String) (st : HState) :
    ∃ resp, (serveMatched env cfg r start k endp cpu delay callSpec st).written
        = st.written ++ [resp] ∧ BuiltFromRow cfg endp cpu delay callSpec resp := by
  refine ⟨_, by simp only [serveMatched, reconcile_written]; rfl, ?_⟩
  refine ⟨rfl, rfl, rfl, rfl, rfl, rfl, ?_⟩
  exact readSlice_fanOut_make env st.heap _ _

theorem serveRow_of_rowAt (env : Env) (cfg : config) (r : Request) (start : Int) (k : Nat)
    (endp : String) (st : HState) (cpu delay : Nat) (callSpec : String)
    (hrow : RowAt cfg k cpu delay callSpec) :
    serveRow env cfg r start k endp st
      = some (serveMatched env cfg r start k endp cpu delay callSpec st) := by
  obtain ⟨h1, h2, h3⟩ := hrow
  simp [serveRow, h1, h2, h3]

theorem serveRow_eq_some (env : Env) (cfg : config) (r : Request) (start : Int) (k : Nat)
    (endp : String) (st st1 : HState) (h : serveRow env cfg r start k endp st = some st1) :
    ∃ cpu delay callSpec, RowAt cfg k cpu delay callSpec ∧
      st1 = serveMatched env cfg r start k endp cpu delay callSpec st := by
  unfold serveRow at h
  split at h
  · rename_i cpu delay callSpec h1 h2 h3
    exact ⟨cpu, delay, callSpec, ⟨h1, h2, h3⟩, (Option.some.inj h).symm⟩
  · exact absurd h (by simp)

theorem rowAt_of_lt (cfg : config) (k : Nat) (h1 : k < cfg.EndpointsCPU.length)
    (h2 : k < cfg.EndpointsDelay.length) (h3 : k < cfg.EndpointsCall.length) :
    ∃ cpu delay callSpec, RowAt cfg k cpu delay callSpec :=
  ⟨cfg.EndpointsCPU[k], cfg.EndpointsDelay[k], cfg.EndpointsCall[k],
    List.getElem?_eq_getElem h1, List.getElem?_eq_getElem h2, List.getElem?_eq_getElem h3⟩

theorem check_eq_true_iff (cfg : config) :
    cfg.check = true ↔
      (cfg.Endpoints.length = cfg.EndpointsCPU.length ∧
        cfg.Endpoints.length = cfg.EndpointsDelay.length ∧
        cfg.Endpoints.length = cfg.EndpointsCall.length) := by
  unfold config.check
  split
  · rename_i h
    exact ⟨fun _ => h, fun _ => rfl⟩
  · rename_i h
    exact ⟨fun hf => absurd hf (by simp), fun hl => absurd hl h⟩

/-! ## Lemmas: the scan over the endpoints -/

theorem handlerLoop_skip (env : Env) (cfg : config) (r : Request) (start : Int) (endp : String)
    (rest : List String) (k : Nat) (st : HState) (hne : endp ≠ r.Path) :
    handlerLoop env cfg r start (endp :: rest) k st
      = handlerLoop env cfg r start rest (k + 1) st := by
  rw [handlerLoop, if_neg hne]

theorem handlerLoop_hit (env : Env) (cfg : config) (r : Request) (start : Int) (endp : String)
    (rest : List String) (k : Nat) (st : HState) (cpu delay : Nat) (callSpec : String)
    (heq : endp = r.Path) (hrow : RowAt cfg k cpu delay callSpec) :
    handlerLoop env cfg r start (endp :: rest) k st
      = handlerLoop env cfg r start rest (k + 1)
          (serveMatched env cfg r start k endp cpu delay callSpec st) := by
  rw [handlerLoop, if_pos heq, serveRow_of_rowAt env cfg r start k endp st cpu delay callSpec hrow]

theorem handlerLoop_cases (env : Env) (cfg : config) (r : Request) (start : Int) (endp : String)
    (rest : List String) (k : Nat) (st : HState) :
    (endp ≠ r.Path ∧ handlerLoop env cfg r start (endp :: rest) k st
        = handlerLoop env cfg r start rest (k + 1) st) ∨
    (endp = r.Path ∧ serveRow env cfg r start k endp st = none ∧
      handlerLoop env cfg r start (endp :: rest) k st = { st with panicked := true }) ∨
    (endp = r.Path ∧ ∃ cpu delay callSpec, RowAt cfg k cpu delay callSpec ∧
      handlerLoop env cfg r start (endp :: rest) k st
        = handlerLoop env cfg r start rest (k + 1)
            (serveMatched env cfg r start k endp cpu delay callSpec st)) := by
  by_cases heq : endp = r.Path
  · cases hs : serveRow env cfg r start k endp st with
    | none =>
      refine Or.inr (Or.inl ⟨heq, rfl, ?_⟩)
      rw [handlerLoop, if_pos heq, hs]
    | some st1 =>
      obtain ⟨cpu, delay, callSpec, hrow, _⟩ := serveRow_eq_some env cfg r start k endp st st1 hs
      exact Or.inr (Or.inr ⟨heq, cpu, delay, callSpec, hrow,
        handlerLoop_hit env cfg r start endp rest k st cpu delay callSpec heq hrow⟩)
  · exact Or.inl ⟨heq, handlerLoop_skip env cfg r start endp rest k st heq⟩

theorem handlerLoop_written_extends (env : Env) (cfg : config) (r : Request) (start : Int)
    (eps : List String) :
    ∀ (k : Nat) (st : HState),
      ∃ extra, (handlerLoop env cfg r start eps k st).written = st.written ++ extra := by
  induction eps with
  | nil => intro k st; exact ⟨[], by simp [handlerLoop]⟩
  | cons endp rest ih =>
    intro k st
    rcases handlerLoop_cases env cfg r start endp rest k st with
      ⟨_, h⟩ | ⟨_, _, h⟩ | ⟨_, cpu, delay, callSpec, _, h⟩
    · rw [h]; exact ih (k + 1) st
    · rw [h]; exact ⟨[], by simp⟩
    · rw [h]
      obtain ⟨resp, hw, _⟩ := serveMatched_spec env cfg r start k endp cpu delay callSpec st
      obtain ⟨extra, he⟩ := ih (k + 1) (serveMatched env cfg r start k endp cpu delay callSpec st)
      exact ⟨resp :: extra, by rw [he, hw]; simp⟩

theorem handlerLoop_origin (env : Env) (cfg : config) (r : Request) (start : Int)
    (eps : List String) :
    ∀ (k : Nat) (st : HState) (resp : Response),
      resp ∈ (handlerLoop env cfg r start eps k st).written →
      resp ∈ st.written ∨ ∃ i cpu delay callSpec, eps[i]? = some r.Path ∧
        RowAt cfg (k + i) cpu delay callSpec ∧ BuiltFromRow cfg r.Path cpu delay callSpec resp := by
  induction eps with
  | nil => intro k st resp h; exact Or.inl h
  | cons endp rest ih =>
    intro k st resp hmem
    rcases handlerLoop_cases env cfg r start endp rest k st with
      ⟨_, h⟩ | ⟨_, _, h⟩ | ⟨heq, cpu, delay, callSpec, hrow, h⟩
    · rw [h] at hmem
      rcases ih (k + 1) st resp hmem with h1 | ⟨i, c, d, cs, hi, hr, hb⟩
      · exact Or.inl h1
      · exact Or.inr ⟨i + 1, c, d, cs, by simpa using hi, by rw [← Nat.add_assoc, Nat.add_right_comm]; exact hr, hb⟩
    · rw [h] at hmem
      exact Or.inl hmem
    · rw [h] at hmem
      rcases ih (k + 1) _ resp hmem with h1 | ⟨i, c, d, cs, hi, hr, hb⟩
      · obtain ⟨resp0, hw, hb0⟩ := serveMatched_spec env cfg r start k endp cpu delay callSpec st
        rw [hw, List.mem_append, List.mem_singleton] at h1
        rcases h1 with h1 | h1
        · exact Or.inl h1
        · subst h1
          exact Or.inr ⟨0, cpu, delay, callSpec, by simp [heq], by simpa using hrow, heq ▸ hb0⟩
      · exact Or.inr ⟨i + 1, c, d, cs, by simpa using hi, by rw [← Nat.add_assoc, Nat.add_right_comm]; exact hr, hb⟩

theorem serveRow_ne_none (env : Env) (cfg : config) (r : Request) (start : Int) (k : Nat)
    (endp : String) (st : HState) (h1 : k < cfg.EndpointsCPU.length)
    (h2 : k < cfg.EndpointsDelay.length) (h3 : k < cfg.EndpointsCall.length) :
    serveRow env cfg r start k endp st ≠ none := by
  obtain ⟨cpu, delay, callSpec, hrow⟩ := rowAt_of_lt cfg k h1 h2 h3
  rw [serveRow_of_rowAt env cfg r start k endp st cpu delay callSpec hrow]
  simp

theorem handlerLoop_no_panic (env : Env) (cfg : config) (r : Request) (start : Int)
    (eps : List String) :
    ∀ (k : Nat) (st : HState), k + eps.length ≤ cfg.EndpointsCPU.length →
      k + eps.length ≤ cfg.EndpointsDelay.length → k + eps.length ≤ cfg.EndpointsCall.length →
      (handlerLoop env cfg r start eps k st).panicked = st.panicked := by
  induction eps with
  | nil => intro k st _ _ _; rfl
  | cons endp rest ih =>
    intro k st h1 h2 h3
    simp only [List.length_cons] at h1 h2 h3
    rcases handlerLoop_cases env cfg r start endp rest k st with
      ⟨_, h⟩ | ⟨_, hnone, _⟩ | ⟨_, cpu, delay, callSpec, _, h⟩
    · rw [h]; exact ih (k + 1) st (by omega) (by omega) (by omega)
    · exact absurd hnone
        (serveRow_ne_none env cfg r start k endp st (by omega) (by omega) (by omega))
    · rw [h, ih (k + 1) _ (by omega) (by omega) (by omega)]
      exact serveMatched_panicked env cfg r start k endp cpu delay callSpec st

theorem handlerLoop_every_row (env : Env) (cfg : config) (r : Request) (start : Int)
    (eps : List String) :
    ∀ (k : Nat) (st : HState) (i : Nat) (cpu delay : Nat) (callSpec : String),
      k + eps.length ≤ cfg.EndpointsCPU.length →
      k + eps.length ≤ cfg.EndpointsDelay.length → k + eps.length ≤ cfg.EndpointsCall.length →
      eps[i]? = some r.Path → RowAt cfg (k + i) cpu delay callSpec →
      ∃ resp, resp ∈ (handlerLoop env cfg r start eps k st).written ∧
        BuiltFromRow cfg r.Path cpu delay callSpec resp := by
  induction eps with
  | nil => intro k st i cpu delay callSpec _ _ _ hi; simp at hi
  | cons endp tl ih =>
    intro k st i cpu delay callSpec h1 h2 h3 hi hrow
    simp only [List.length_cons] at h1 h2 h3
    cases i with
    | zero =>
      have heq : endp = r.Path := by simpa using hi
      have hrow0 : RowAt cfg k cpu delay callSpec := by simpa using hrow
      rw [handlerLoop_hit env cfg r start endp tl k st cpu delay callSpec heq hrow0]
      obtain ⟨resp, hw, hb⟩ := serveMatched_spec env cfg r start k endp cpu delay callSpec st
      obtain ⟨extra, he⟩ := handlerLoop_written_extends env cfg r start tl (k + 1)
        (serveMatched env cfg r start k endp cpu delay callSpec st)
      exact ⟨resp, by rw [he, hw]; simp, heq ▸ hb⟩
    | succ m =>
      have hi1 : tl[m]? = some r.Path := by simpa using hi
      have hrow1 : RowAt cfg (k + 1 + m) cpu delay callSpec := by
        rw [Nat.add_assoc, Nat.add_comm 1 m]; exact hrow
      rcases handlerLoop_cases env cfg r start endp tl k st with
        ⟨_, h⟩ | ⟨_, hnone, _⟩ | ⟨_, c, d, cs, _, h⟩
      · rw [h]
        exact ih (k + 1) st m cpu delay callSpec (by omega) (by omega) (by omega) hi1 hrow1
      · exact absurd hnone
          (serveRow_ne_none env cfg r start k endp st (by omega) (by omega) (by omega))
      · rw [h]
        exact ih (k + 1) _ m cpu delay callSpec (by omega) (by omega) (by omega) hi1 hrow1

/-! ## Lemmas: registration -/

theorem since_bounds (now start : Int) :
    -(2 ^ 63) ≤ since now start ∧ since now start ≤ 2 ^ 63 - 1 := by
  unfold since
  omega

theorem since_nonneg (now start : Int) (h : start ≤ now) : 0 ≤ since now start := by
  unfold since
  omega

theorem waitTime_exact (delay : Nat) (now start : Int)
    (hD : (delay : Int) * Millisecond < 2 ^ 63) (hE : 0 ≤ since now start) :
    waitTime delay now start = (delay : Int) * Millisecond - since now start := by
  have hb := since_bounds now start
  unfold waitTime
  unfold Millisecond at hD ⊢
  have h1 : wrapInt64 (delay : Int) = delay := wrapInt64_of_range _ (by omega) (by omega)
  rw [h1]
  have h2 : wrapInt64 ((delay : Int) * 1000000) = (delay : Int) * 1000000 :=
    wrapInt64_of_range _ (by omega) (by omega)
  rw [h2]
  exact wrapInt64_of_range _ (by omega) (by omega)

theorem reconcile_now (env : Env) (delay : Nat) (start : Int) (st : HState) :
    (reconcile env delay start st).now
      = if waitTime delay st.now start > 0 then
          st.now + waitTime delay st.now start + env.sleepOvershoot
        else st.now := by
  unfold reconcile
  split <;> rfl

theorem reconcile_sleeps (env : Env) (delay : Nat) (start : Int) (st : HState) :
    (reconcile env delay start st).sleeps
      = if waitTime delay st.now start > 0 then st.sleeps ++ [waitTime delay st.now start]
        else st.sleeps := by
  unfold reconcile
  split <;> rfl

theorem serveMatched_sleeps (env : Env) (cfg : config) (r : Request) (start : Int) (k : Nat)
    (endp : String) (cpu delay : Nat) (callSpec : String) (st : HState) :
    (serveMatched env cfg r start k endp cpu delay callSpec st).sleeps
      = if waitTime delay (st.now + env.elapsed k) start > 0 then
          st.sleeps ++ [waitTime delay (st.now + env.elapsed k) start]
        else st.sleeps := by
  simp only [serveMatched, reconcile_sleeps]

theorem serveMatched_actualDelay (env : Env) (cfg : config) (r : Request) (start : Int) (k : Nat)
    (endp : String) (cpu delay : Nat) (callSpec : String) (st : HState) :
    ∃ resp, (serveMatched env cfg r start k endp cpu delay callSpec st).written
        = st.written ++ [resp] ∧
      resp.ActualDelay
        = since (if waitTime delay (st.now + env.elapsed k) start > 0 then
            st.now + env.elapsed k + waitTime delay (st.now + env.elapsed k) start
              + env.sleepOvershoot
          else st.now + env.elapsed k) start := by
  refine ⟨_, by simp only [serveMatched, reconcile_written]; rfl, ?_⟩
  simp only [reconcile_now]

/-! ## The claims -/

/-- C1, evaluated on the code.  In the end-to-end scenario (`/ping`, empty call
spec, the single empty target fails to connect) the handler serves one response
whose `callouts` is `[""]`, not `["Oops, calling out failed"]`; and when every
call succeeds, the three-target spec `host1__host2__host3` yields three empty
strings instead of the three bodies.  The outcome of a call is appended to the
callee's copy of the slice header and never reaches the slice the handler
encodes. -/
theorem callouts_outcome_lost :
    (handler envDown cfgPing (getRequest "/ping") 0).written.map (fun resp => resp.Callouts)
        = [[""]] ∧
      (handler envDown cfgPing (getRequest "/ping") 0).written.map (fun resp => resp.Callouts)
        ≠ [[callFailedMarker]] ∧
      envDown.httpGet ("http://" ++ "") = CallResult.connFailed ∧
      (handler envUp cfgCall (getRequest "/index") 0).written.map (fun resp => resp.Callouts)
        = [["", "", ""]] ∧
      envUp.httpGet ("http://" ++ "host1") = CallResult.body "pong from http://host1" := by
  decide

/-- C2.  Every response the handler builds has as many `callouts` entries as the
call spec has targets after removing the quote characters and splitting on
`"__"`; that number is at least one.  This holds for the body of the matched
branch on every call spec and for every response of every run of the handler.
The empty spec has one target and `host1__host2__host3` has three. -/
theorem callouts_count (env : Env) (cfg : config) (r : Request) :
    (∀ (start : Int) (k : Nat) (endp : String) (cpu delay : Nat) (callSpec : String)
        (st : HState),
        ∃ resp, (serveMatched env cfg r start k endp cpu delay callSpec st).written
            = st.written ++ [resp] ∧
          resp.CalloutParameter = callSpec ∧
          resp.Callouts.length = (splitDunder (replaceAllQuote callSpec)).length ∧
          0 < resp.Callouts.length) ∧
      (∀ (t0 : Int) (resp : Response), resp ∈ (handler env cfg r t0).written →
        resp.Callouts.length = (splitDunder (replaceAllQuote resp.CalloutParameter)).length ∧
          0 < resp.Callouts.length) ∧
      (splitDunder (replaceAllQuote "")).length = 1 ∧
      splitDunder (replaceAllQuote "host1__host2__host3") = ["host1", "host2", "host3"] := by
  refine ⟨?_, ?_, by decide, by decide⟩
  · intro start k endp cpu delay callSpec st
    obtain ⟨resp, hw, _, _, _, _, _, hspec, hcall⟩ :=
      serveMatched_spec env cfg r start k endp cpu delay callSpec st
    refine ⟨resp, hw, hspec, ?_, ?_⟩
    · rw [hcall, List.length_replicate]
    · rw [hcall, List.length_replicate]
      exact splitDunder_length_pos _
  · intro t0 resp hmem
    rcases handlerLoop_origin env cfg r t0 cfg.Endpoints 0 (initState t0) resp hmem with
      h | ⟨_, cpu, delay, callSpec, _, _, _, _, _, _, _, hspec, hcall⟩
    · exact absurd h (by simp [initState])
    · rw [hcall, hspec, List.length_replicate]
      exact ⟨rfl, splitDunder_length_pos _⟩

/-- C3.  The method `check` returns true exactly when the four sequences have
the same length, and the `config` field of every response the handler builds
is that value: for the body of the matched branch at every row and state, and
for every response of every run of the handler. -/
theorem config_flag_is_check (env : Env) (cfg : config) (r : Request) :
    (cfg.check = true ↔
        (cfg.Endpoints.length = cfg.EndpointsCPU.length ∧
          cfg.Endpoints.length = cfg.EndpointsDelay.length ∧
          cfg.Endpoints.length = cfg.EndpointsCall.length)) ∧
      (∀ (start : Int) (k : Nat) (endp : String) (cpu delay : Nat) (callSpec : String)
        (st : HState),
        ∃ resp, (serveMatched env cfg r start k endp cpu delay callSpec st).written
            = st.written ++ [resp] ∧ resp.ConfigOK = cfg.check) ∧
      (∀ (t0 : Int) (resp : Response), resp ∈ (handler env cfg r t0).written →
        resp.ConfigOK = cfg.check) := by
  refine ⟨check_eq_true_iff cfg, ?_, ?_⟩
  · intro start k endp cpu delay callSpec st
    obtain ⟨resp, hw, _, hok, _⟩ := serveMatched_spec env cfg r start k endp cpu delay callSpec st
    exact ⟨resp, hw, hok⟩
  · intro t0 resp hmem
    rcases handlerLoop_origin env cfg r t0 cfg.Endpoints 0 (initState t0) resp hmem with
      h | ⟨_, cpu, delay, callSpec, _, _, _, hok, _⟩
    · exact absurd h (by simp [initState])
    · exact hok

/-- C4, evaluated on the code.  The configuration `cfgShort` has three endpoints
and two call specs, so `check` is false; a request to its configured path
`/extra` matches row 2, the read `cfg.EndpointsCall[2]` is out of range, and the
handler is aborted by the panic without having written any response.  A request
to `/read` (row 0, present in all sequences) is served with `config` false. -/
theorem mismatched_config_panics :
    cfgShort.check = false ∧ "/extra" ∈ cfgShort.Endpoints ∧
      (handler envDown cfgShort (getRequest "/extra") 0).panicked = true ∧
      (handler envDown cfgShort (getRequest "/extra") 0).written = [] ∧
      (handler envDown cfgShort (getRequest "/read") 0).panicked = false ∧
      (handler envDown cfgShort (getRequest "/read") 0).written.map (fun resp => resp.ConfigOK)
        = [false] := by
  decide

/-- C5, counterexample.  With the calibration constant `10^7` and the
millisecond target `10^12` the product `10^19` does not fit a 64-bit `int`: it
wraps to a negative number, the loop condition is false at once and the body
runs 0 times, while `floor(10^7 * 10^12 / 1000)` is `10^16`; nor is the count
the (negative) quotient of the wrapped product. -/
theorem burn_product_overflows :
    (0 : Int) ≤ 10000000 ∧ (0 : Int) ≤ 1000000000000 ∧
      tightAlgorithm 10000000 1000000000000 = 0 ∧
      ((tightAlgorithm 10000000 1000000000000 : Nat) : Int)
        ≠ 10000000 * 1000000000000 / 1000 ∧
      ((tightAlgorithm 10000000 1000000000000 : Nat) : Int)
        ≠ wrapInt64 (10000000 * 1000000000000) / 1000 := by
  have h : tightAlgorithm 10000000 1000000000000 = 0 := by
    rw [tightAlgorithm_eq]
    decide
  rw [h]
  decide

/-- C5, amended.  For a calibration constant `N ≥ 0` and a millisecond target
`ms ≥ 0` whose product fits a 64-bit `int`, the busy loop terminates and its
body runs exactly `floor(N * ms / 1000)` times.  The handler passes
`int(EndpointsCPU[k])` as the millisecond target. -/
theorem tightAlgorithm_body_runs (N ms : Int) (hN : 0 ≤ N) (hms : 0 ≤ ms)
    (hfit : N * ms < 2 ^ 63) :
    ((tightAlgorithm N ms : Nat) : Int) = N * ms / 1000 ∧
      (∀ (env : Env) (cfg : config) (r : Request) (start : Int) (k : Nat) (endp : String)
        (cpu delay : Nat) (callSpec : String) (st : HState),
        (serveMatched env cfg r start k endp cpu delay callSpec st).burns
          = st.burns ++ [tightAlgorithm env.NumberOfIterationsPerSec (wrapInt64 cpu)]) := by
  have hpos : 0 ≤ N * ms := mul_nonneg hN hms
  have hw : wrapInt64 (N * ms) = N * ms := wrapInt64_of_range _ (by omega) hfit
  refine ⟨?_, ?_⟩
  · rw [tightAlgorithm_eq, iterationNeeded, hw, Int.tdiv_eq_ediv hpos (by decide)]
    exact Int.toNat_of_nonneg (Int.ediv_nonneg hpos (by decide))
  · intro env cfg r start k endp cpu delay callSpec st
    exact serveMatched_burns env cfg r start k endp cpu delay callSpec st

/-- C5, witness: calibration constant 1000 and target 10 ms give 10 body runs. -/
theorem tightAlgorithm_body_runs_witness :
    (0 : Int) ≤ 1000 ∧ (0 : Int) ≤ 10 ∧ (1000 * 10 : Int) < 2 ^ 63 ∧
      ((tightAlgorithm 1000 10 : Nat) : Int) = 1000 * 10 / 1000 :=
  ⟨by decide, by decide, by decide,
    (tightAlgorithm_body_runs 1000 10 (by decide) (by decide) (by decide)).1⟩

/-- C6.  The loop of `tightAlgorithm` runs its body zero times when the
millisecond target is 0, whatever the calibration constant, and when the
calibration constant is 0, whatever the millisecond target; the only division
is by the constant 1000 and the function is total. -/
theorem tightAlgorithm_zero (N ms : Int) :
    tightAlgorithm N 0 = 0 ∧ tightAlgorithm 0 ms = 0 ∧
      tightLoop (iterationNeeded N 0) 0 0 = (0, 0) ∧
      tightLoop (iterationNeeded 0 ms) 0 0 = (0, 0) := by
  have h1 : iterationNeeded N 0 = 0 := by
    unfold iterationNeeded
    rw [Int.mul_zero]
    decide
  have h2 : iterationNeeded 0 ms = 0 := by
    unfold iterationNeeded
    rw [Int.zero_mul]
    decide
  have h3 : tightLoop 0 0 0 = (0, 0) := by
    rw [tightLoop]
    simp
  unfold tightAlgorithm
  rw [h1, h2, h3]
  exact ⟨rfl, rfl, rfl, rfl⟩

/-- C7, counterexample.  The delay target `9223372036855` ms is a `uint`, but in
nanoseconds it exceeds the `time.Duration` range: the product wraps to a
negative duration, `waitTime` is negative, and although no time has elapsed
(`E = 0 < D`) the handler does not sleep and reports a latency of 0. -/
theorem long_delay_not_awaited :
    cfgLongDelay.EndpointsDelay = [9223372036855] ∧
      since ((initState 0).now + envDown.elapsed 0) 0 < 9223372036855 * Millisecond ∧
      (handler envDown cfgLongDelay (getRequest "/slow") 0).sleeps = [] ∧
      (handler envDown cfgLongDelay (getRequest "/slow") 0).written.map
        (fun resp => resp.ActualDelay) = [0] := by
  decide

/-- C7, amended.  For a delay target `D` ms whose nanosecond value fits
`time.Duration`, and the time `E = time.Since(start)` read at the reconcile step
(the clock not running backwards): if `E < D` the handler calls `time.Sleep`
once, with exactly `D - E`, and the reported latency is at least `D`; if
`E ≥ D` it does not sleep and the reported latency is `E`. -/
theorem reconcile_meets_delay (env : Env) (cfg : config) (r : Request) (start : Int) (k : Nat)
    (endp : String) (cpu delay : Nat) (callSpec : String) (st : HState)
    (hD : (delay : Int) * Millisecond < 2 ^ 63) (hstart : start ≤ st.now) :
    ∃ resp, (serveMatched env cfg r start k endp cpu delay callSpec st).written
        = st.written ++ [resp] ∧
      (since (st.now + env.elapsed k) start < (delay : Int) * Millisecond →
        (serveMatched env cfg r start k endp cpu delay callSpec st).sleeps
            = st.sleeps ++ [(delay : Int) * Millisecond - since (st.now + env.elapsed k) start] ∧
          (delay : Int) * Millisecond ≤ resp.ActualDelay) ∧
      ((delay : Int) * Millisecond ≤ since (st.now + env.elapsed k) start →
        (serveMatched env cfg r start k endp cpu delay callSpec st).sleeps = st.sleeps ∧
          resp.ActualDelay = since (st.now + env.elapsed k) start) := by
  obtain ⟨resp, hw, hact⟩ := serveMatched_actualDelay env cfg r start k endp cpu delay callSpec st
  have hE : 0 ≤ since (st.now + env.elapsed k) start := since_nonneg _ _ (by omega)
  have hwt := waitTime_exact delay (st.now + env.elapsed k) start hD hE
  rw [serveMatched_sleeps, hwt]
  rw [hwt] at hact
  refine ⟨resp, hw, ?_, ?_⟩
  · intro hlt
    rw [if_pos (by omega)] at hact ⊢
    refine ⟨rfl, ?_⟩
    rw [hact]
    unfold since at hlt ⊢
    unfold Millisecond at hD hlt ⊢
    omega
  · intro hge
    rw [if_neg (by omega)] at hact ⊢
    exact ⟨rfl, hact⟩

/-- C7, witness: the `/ping` row (delay 50 ms) served from the initial state with
no time elapsed sleeps the full 50 ms. -/
theorem reconcile_meets_delay_witness :
    ((50 : Nat) : Int) * Millisecond < 2 ^ 63 ∧ (0 : Int) ≤ (initState 0).now ∧
      ∃ resp, (serveMatched envDown cfgPing (getRequest "/ping") 0 0 "/ping" 10 50 ""
          (initState 0)).written = (initState 0).written ++ [resp] ∧
        (since ((initState 0).now + envDown.elapsed 0) 0 < ((50 : Nat) : Int) * Millisecond →
          (serveMatched envDown cfgPing (getRequest "/ping") 0 0 "/ping" 10 50 ""
              (initState 0)).sleeps
            = (initState 0).sleeps
              ++ [((50 : Nat) : Int) * Millisecond
                - since ((initState 0).now + envDown.elapsed 0) 0] ∧
            ((50 : Nat) : Int) * Millisecond ≤ resp.ActualDelay) ∧
        (((50 : Nat) : Int) * Millisecond ≤ since ((initState 0).now + envDown.elapsed 0) 0 →
          (serveMatched envDown cfgPing (getRequest "/ping") 0 0 "/ping" 10 50 ""
              (initState 0)).sleeps = (initState 0).sleeps ∧
            resp.ActualDelay = since ((initState 0).now + envDown.elapsed 0) 0) :=
  ⟨by decide, by decide,
    reconcile_meets_delay envDown cfgPing (getRequest "/ping") 0 0 "/ping" 10 50 ""
      (initState 0) (by decide) (by decide)⟩

/-- C9, counterexample.  The CPU weight `2^31` and the delay target `2^32` are
`uint` values of a valid configuration, yet the response shows `cpu` as
`-2147483648` and `delay` as `0`: the conversion to `int32` keeps the low 32 bits. -/
theorem wide_values_wrap :
    cfgWide.check = true ∧ cfgWide.EndpointsCPU = [2147483648] ∧
      cfgWide.EndpointsDelay = [4294967296] ∧
      (handler envDown cfgWide (getRequest "/wide") 0).written.map
        (fun resp => (resp.CPU, resp.Delay)) = [(-2147483648, 0)] := by
  decide

/-- C9, amended.  For every valid configuration and every row `k` whose path is
the request path, the handler produces a response with `service` the configured
name, `endpoint` equal to `Endpoints[k]`, `calloutparameter` the raw
`EndpointsCall[k]`, and `cpu` and `delay` the `int32` conversions of
`EndpointsCPU[k]` and `EndpointsDelay[k]`, which equal the configured values
whenever these are below `2^31`. -/
theorem response_carries_row (env : Env) (cfg : config) (r : Request) (t0 : Int)
    (k cpu delay : Nat) (callSpec : String) (hc : cfg.check = true)
    (hk : cfg.Endpoints[k]? = some r.Path) (hrow : RowAt cfg k cpu delay callSpec) :
    ∃ resp, resp ∈ (handler env cfg r t0).written ∧
      resp.ServiceName = cfg.Name ∧ cfg.Endpoints[k]? = some resp.CalledEnpoint ∧
      resp.CPU = wrapInt32 cpu ∧ resp.Delay = wrapInt32 delay ∧
      resp.CalloutParameter = callSpec ∧
      (cpu < 2 ^ 31 → resp.CPU = cpu) ∧ (delay < 2 ^ 31 → resp.Delay = delay) := by
  obtain ⟨h1, h2, h3⟩ := (check_eq_true_iff cfg).mp hc
  obtain ⟨resp, hmem, hname, _, hendp, hcpu, hdelay, hspec, _⟩ :=
    handlerLoop_every_row env cfg r t0 cfg.Endpoints 0 (initState t0) k cpu delay callSpec
      (by omega) (by omega) (by omega) hk (by simpa using hrow)
  refine ⟨resp, hmem, hname, by rw [hendp]; exact hk, hcpu, hdelay, hspec, ?_, ?_⟩
  · intro hlt
    rw [hcpu]
    exact wrapInt32_of_range _ (by omega) (by omega)
  · intro hlt
    rw [hdelay]
    exact wrapInt32_of_range _ (by omega) (by omega)

/-- C9, witness: the `/ping` row (CPU 10, delay 50, empty call spec). -/
theorem response_carries_row_witness :
    cfgPing.check = true ∧ cfgPing.Endpoints[0]? = some (getRequest "/ping").Path ∧
      RowAt cfgPing 0 10 50 "" ∧
      ∃ resp, resp ∈ (handler envDown cfgPing (getRequest "/ping") 0).written ∧
        resp.ServiceName = cfgPing.Name ∧ cfgPing.Endpoints[0]? = some resp.CalledEnpoint ∧
        resp.CPU = wrapInt32 (10 : Nat) ∧ resp.Delay = wrapInt32 (50 : Nat) ∧
        resp.CalloutParameter = "" ∧
        (10 < 2 ^ 31 → resp.CPU = (10 : Nat)) ∧ (50 < 2 ^ 31 → resp.Delay = (50 : Nat)) :=
  ⟨by decide, by decide, ⟨rfl, rfl, rfl⟩,
    response_carries_row envDown cfgPing (getRequest "/ping") 0 0 10 50 "" (by decide)
      (by decide) ⟨rfl, rfl, rfl⟩⟩

/-- C10.  For a configuration on which `check` returns true, no run of the
handler panics: every index `k` of the scan lies within `EndpointsCPU`,
`EndpointsDelay` and `EndpointsCall`, so the three indexed reads of the matched
branch succeed in every state. -/
theorem valid_config_in_bounds (env : Env) (cfg : config) (r : Request) (t0 : Int)
    (hc : cfg.check = true) :
    (handler env cfg r t0).panicked = false ∧
      ∀ k, k < cfg.Endpoints.length →
        k < cfg.EndpointsCPU.length ∧ k < cfg.EndpointsDelay.length ∧
          k < cfg.EndpointsCall.length ∧
          ∀ (endp : String) (st : HState), serveRow env cfg r t0 k endp st ≠ none := by
  obtain ⟨h1, h2, h3⟩ := (check_eq_true_iff cfg).mp hc
  refine ⟨?_, ?_⟩
  · unfold handler
    rw [handlerLoop_no_panic env cfg r t0 cfg.Endpoints 0 (initState t0) (by omega) (by omega)
      (by omega)]
    rfl
  · intro k hk
    refine ⟨by omega, by omega, by omega, ?_⟩
    intro endp st
    exact serveRow_ne_none env cfg r t0 k endp st (by omega) (by omega) (by omega)

/-- C10, witness: the default-shaped configuration `cfgPing` is valid and its
handler does not panic on `/ping`. -/
theorem valid_config_in_bounds_witness :
    cfgPing.check = true ∧ (handler envDown cfgPing (getRequest "/ping") 0).panicked = false :=
  ⟨by decide, (valid_config_in_bounds envDown cfgPing (getRequest "/ping") 0 (by decide)).1⟩

end EchoWebserver
